import Mathlib

/-!
# Verification of the `ctxrewriter` rewrite engine

A shallow embedding of `ctxrewriter.go`: the Go AST node kinds handled by the
`rewrite` type switch are modelled as a family of mutually inductive types
mirroring `go/ast` (expressions, statements, declarations, specs, and the
concrete node types `CallExpr`, `BlockStmt`, `Field`, `FieldList`, `FuncType`),
and `rewrite` itself as a family of mutually recursive functions, one per
interface/concrete type, returning `Except` to model the `panic` in the
`default` branch of the type switch.  Position fields (`token.Pos`) are
dropped; identifiers are carried as their name strings where the source never
rewrites them (`Field.Names`, `ValueSpec.Names`, `FuncDecl.Name`, labels).

Node kinds that exist in `go/ast` but have no case in the type switch
(`ast.BadExpr`, `ast.BadStmt`, `ast.BadDecl`) are included as constructors so
that the `default: panic(node)` branch is part of the model.
-/

set_option maxHeartbeats 1000000

namespace Ctxrewriter

/-- The reserved parameter/argument name, `ctxVariable = "ctx"` in the source. -/
def ctxVariable : String := "ctx"

mutual

/-- `ast.Expr` nodes appearing in the source's type switch, plus `ast.BadExpr`
(no case in the switch). `funcType` embeds the concrete `FuncTy` record, since
`*ast.FuncType` is itself an `ast.Expr` in Go. -/
inductive Expr where
  | basicLit (value : String)
  | ident (name : String)
  | arrayType (len : Option Expr) (elt : Expr)
  | binaryExpr (x : Expr) (op : String) (y : Expr)
  | callExpr (call : CallE)
  | chanType (dir : Nat) (value : Expr)
  | compositeLit (typ : Option Expr) (elts : Option (List Expr))
  | ellipsis (elt : Option Expr)
  | funcLit (typ : FuncTy) (body : Option Block)
  | funcType (typ : FuncTy)
  | indexExpr (x : Expr) (index : Expr)
  | interfaceType (methods : FieldL)
  | keyValueExpr (key : Expr) (value : Expr)
  | mapType (key : Expr) (value : Expr)
  | parenExpr (x : Expr)
  | selectorExpr (x : Expr) (sel : String)
  | sliceExpr (x : Expr) (low : Option Expr) (high : Option Expr) (max : Option Expr)
  | starExpr (x : Expr)
  | structType (fields : FieldL)
  | typeAssertExpr (x : Option Expr) (typ : Option Expr)
  | unaryExpr (op : String) (x : Expr)
  | badExpr

/-- `ast.Stmt` nodes appearing in the type switch, plus `ast.BadStmt`.
Slices that may be `nil` in Go are `Option (List _)`; `nil` pointers to
optional children are `Option _`. -/
inductive Stmt where
  | branchStmt (tok : String) (label : Option String)
  | emptyStmt
  | assignStmt (lhs : Option (List Expr)) (tok : String) (rhs : Option (List Expr))
  | blockStmt (block : Block)
  | caseClause (list : Option (List Expr)) (body : Option (List Stmt))
  | commClause (comm : Option Stmt) (body : Option (List Stmt))
  | declStmt (decl : Decl)
  | deferStmt (call : CallE)
  | exprStmt (x : Expr)
  | forStmt (init : Option Stmt) (cond : Option Expr) (post : Option Stmt)
      (body : Option Block)
  | goStmt (call : CallE)
  | ifStmt (init : Option Stmt) (cond : Option Expr) (body : Option Block)
      (els : Option Stmt)
  | incDecStmt (x : Expr) (tok : String)
  | labeledStmt (label : String) (stmt : Stmt)
  | rangeStmt (key : Option Expr) (value : Option Expr) (tok : String)
      (x : Option Expr) (body : Option Block)
  | returnStmt (results : Option (List Expr))
  | selectStmt (body : Option Block)
  | sendStmt (chan : Option Expr) (value : Option Expr)
  | switchStmt (init : Option Stmt) (tag : Option Expr) (body : Option Block)
  | typeSwitchStmt (init : Option Stmt) (assign : Option Stmt) (body : Option Block)
  | badStmt

/-- `ast.Decl` nodes in the type switch (`*ast.FuncDecl`, `*ast.GenDecl`),
plus `ast.BadDecl`. `funcDecl.recv` is the receiver `*ast.FieldList`. -/
inductive Decl where
  | funcDecl (recv : Option FieldL) (name : String) (typ : FuncTy) (body : Option Block)
  | genDecl (tok : String) (specs : Option (List Spec))
  | badDecl

/-- `ast.Spec` nodes: `*ast.ImportSpec`, `*ast.TypeSpec`, `*ast.ValueSpec`.
`importSpec.path` holds the `Path` basic literal's value string. -/
inductive Spec where
  | importSpec (name : Option String) (path : String)
  | typeSpec (name : String) (typ : Expr)
  | valueSpec (names : Option (List String)) (typ : Option Expr)
      (values : Option (List Expr))

/-- `ast.CallExpr`: `Fun` and `Args` (a possibly-`nil` slice). -/
inductive CallE where
  | mk (fn : Expr) (args : Option (List Expr))

/-- `ast.BlockStmt`: its `List` of statements (a possibly-`nil` slice). -/
inductive Block where
  | mk (list : Option (List Stmt))

/-- `ast.Field`: `Names` (never rewritten, kept as strings), `Type`, `Tag`. -/
inductive Field where
  | mk (names : Option (List String)) (typ : Expr) (tag : Option String)

/-- `ast.FieldList`: its `List` of fields (a possibly-`nil` slice). -/
inductive FieldL where
  | mk (list : Option (List Field))

/-- `ast.FuncType`: `Params *ast.FieldList` and `Results *ast.FieldList`
(the latter possibly `nil`). -/
inductive FuncTy where
  | mk (params : FieldL) (results : Option FieldL)

end

/-- `ast.File`: package name and the `Decls` slice (possibly `nil`). -/
structure File where
  name : String
  decls : Option (List Decl)

/-- The payload of the `panic(node)` in the `default` branch: the offending
`ast.Node`. -/
inductive GoNode where
  | ofExpr (e : Expr)
  | ofStmt (s : Stmt)
  | ofDecl (d : Decl)

/-- The `List` of an `ast.FieldList`, reading a `nil` slice as the empty list
(Go's `range` and `append(..., s...)` treat a `nil` slice and an empty one
alike). -/
def FieldL.listOrNil : FieldL → List Field
  | .mk l => l.getD []

/-- The synthetic parameter injected by the `*ast.FuncType` case:
`&ast.Field{Names: []*ast.Ident{ast.NewIdent(ctxVariable)},
Type: &ast.SelectorExpr{X: ast.NewIdent("context"), Sel: ast.NewIdent("Context")}}`. -/
def ctxField : Field :=
  .mk (some [ctxVariable]) (.selectorExpr (.ident "context") "Context") none

/-- The synthetic import declaration prepended by the `*ast.File` case:
`&ast.GenDecl{Tok: token.IMPORT, Specs: []ast.Spec{&ast.ImportSpec{Path:
&ast.BasicLit{Value: `"golang.org/x/net/context"`}}}}`. -/
def contextImportDecl : Decl :=
  .genDecl "import" (some [.importSpec none "\"golang.org/x/net/context\""])

mutual

/-- The `rewrite` cases whose scrutinee is an `ast.Expr`. -/
def rewriteExpr : Expr → Except GoNode Expr
  | .basicLit v => .ok (.basicLit v)
  | .ident n => .ok (.ident n)
  | .arrayType len elt => do
      let len' ← rewriteExprOpt len
      let elt' ← rewriteExpr elt
      .ok (.arrayType len' elt')
  | .binaryExpr x op y => do
      let x' ← rewriteExpr x
      let y' ← rewriteExpr y
      .ok (.binaryExpr x' op y')
  | .callExpr c => do .ok (.callExpr (← rewriteCallE c))
  | .chanType dir v => do .ok (.chanType dir (← rewriteExpr v))
  | .compositeLit t elts => do
      let t' ← rewriteExprOpt t
      let elts' ← rewriteExprs elts
      .ok (.compositeLit t' elts')
  | .ellipsis elt => do .ok (.ellipsis (← rewriteExprOpt elt))
  | .funcLit t b => do
      let t' ← rewriteFuncTy t
      let b' ← rewriteBlockOpt b
      .ok (.funcLit t' b')
  | .funcType t => do .ok (.funcType (← rewriteFuncTy t))
  | .indexExpr x i => do
      let x' ← rewriteExpr x
      let i' ← rewriteExpr i
      .ok (.indexExpr x' i')
  | .interfaceType ms => do .ok (.interfaceType (← rewriteFieldL ms))
  | .keyValueExpr k v => do
      let k' ← rewriteExpr k
      let v' ← rewriteExpr v
      .ok (.keyValueExpr k' v')
  | .mapType k v => do
      let k' ← rewriteExpr k
      let v' ← rewriteExpr v
      .ok (.mapType k' v')
  | .parenExpr x => do .ok (.parenExpr (← rewriteExpr x))
  | .selectorExpr x sel => do .ok (.selectorExpr (← rewriteExpr x) sel)
  | .sliceExpr x lo hi mx => do
      let x' ← rewriteExpr x
      let lo' ← rewriteExprOpt lo
      let hi' ← rewriteExprOpt hi
      let mx' ← rewriteExprOpt mx
      .ok (.sliceExpr x' lo' hi' mx')
  | .starExpr x => do .ok (.starExpr (← rewriteExpr x))
  | .structType fs => do .ok (.structType (← rewriteFieldL fs))
  | .typeAssertExpr x t => do
      let x' ← rewriteExprOpt x
      let t' ← rewriteExprOpt t
      .ok (.typeAssertExpr x' t')
  | .unaryExpr op x => do .ok (.unaryExpr op (← rewriteExpr x))
  | .badExpr => .error (.ofExpr .badExpr)

/-- An `if c.X != nil { c.X = rewrite(c.X).(ast.Expr) }` guard. -/
def rewriteExprOpt : Option Expr → Except GoNode (Option Expr)
  | none => .ok none
  | some e => do .ok (some (← rewriteExpr e))

/-- The element-wise loop inside `rewriteExprs`. -/
def rewriteExprList : List Expr → Except GoNode (List Expr)
  | [] => .ok []
  | e :: es => do
      let e' ← rewriteExpr e
      let es' ← rewriteExprList es
      .ok (e' :: es')

/-- `rewriteExprs`: `nil` slices are returned as `nil`, otherwise each
element is rewritten in order. -/
def rewriteExprs : Option (List Expr) → Except GoNode (Option (List Expr))
  | none => .ok none
  | some es => do .ok (some (← rewriteExprList es))

/-- The `rewrite` cases whose scrutinee is an `ast.Stmt`. -/
def rewriteStmt : Stmt → Except GoNode Stmt
  | .branchStmt tok lbl => .ok (.branchStmt tok lbl)
  | .emptyStmt => .ok .emptyStmt
  | .assignStmt lhs tok rhs => do
      let lhs' ← rewriteExprs lhs
      let rhs' ← rewriteExprs rhs
      .ok (.assignStmt lhs' tok rhs')
  | .blockStmt b => do .ok (.blockStmt (← rewriteBlock b))
  | .caseClause l b => do
      let l' ← rewriteExprs l
      let b' ← rewriteStmts b
      .ok (.caseClause l' b')
  | .commClause c b => do
      let c' ← rewriteStmtOpt c
      let b' ← rewriteStmts b
      .ok (.commClause c' b')
  | .declStmt d => do .ok (.declStmt (← rewriteDecl d))
  | .deferStmt c => do .ok (.deferStmt (← rewriteCallE c))
  | .exprStmt x => do .ok (.exprStmt (← rewriteExpr x))
  | .forStmt i c p b => do
      let i' ← rewriteStmtOpt i
      let c' ← rewriteExprOpt c
      let p' ← rewriteStmtOpt p
      let b' ← rewriteBlockOpt b
      .ok (.forStmt i' c' p' b')
  | .goStmt c => do .ok (.goStmt (← rewriteCallE c))
  | .ifStmt i c b e => do
      let i' ← rewriteStmtOpt i
      let c' ← rewriteExprOpt c
      let b' ← rewriteBlockOpt b
      let e' ← rewriteStmtOpt e
      .ok (.ifStmt i' c' b' e')
  | .incDecStmt x tok => do .ok (.incDecStmt (← rewriteExpr x) tok)
  | .labeledStmt lbl s => do .ok (.labeledStmt lbl (← rewriteStmt s))
  | .rangeStmt k v tok x b => do
      let k' ← rewriteExprOpt k
      let v' ← rewriteExprOpt v
      let x' ← rewriteExprOpt x
      let b' ← rewriteBlockOpt b
      .ok (.rangeStmt k' v' tok x' b')
  | .returnStmt rs => do .ok (.returnStmt (← rewriteExprs rs))
  | .selectStmt b => do .ok (.selectStmt (← rewriteBlockOpt b))
  | .sendStmt ch v => do
      let ch' ← rewriteExprOpt ch
      let v' ← rewriteExprOpt v
      .ok (.sendStmt ch' v')
  | .switchStmt i t b => do
      let i' ← rewriteStmtOpt i
      let t' ← rewriteExprOpt t
      let b' ← rewriteBlockOpt b
      .ok (.switchStmt i' t' b')
  | .typeSwitchStmt i a b => do
      let i' ← rewriteStmtOpt i
      let a' ← rewriteStmtOpt a
      let b' ← rewriteBlockOpt b
      .ok (.typeSwitchStmt i' a' b')
  | .badStmt => .error (.ofStmt .badStmt)

/-- An `if c.X != nil { c.X = rewrite(c.X).(ast.Stmt) }` guard. -/
def rewriteStmtOpt : Option Stmt → Except GoNode (Option Stmt)
  | none => .ok none
  | some s => do .ok (some (← rewriteStmt s))

/-- The element-wise loop inside `rewriteStmts`. -/
def rewriteStmtList : List Stmt → Except GoNode (List Stmt)
  | [] => .ok []
  | s :: ss => do
      let s' ← rewriteStmt s
      let ss' ← rewriteStmtList ss
      .ok (s' :: ss')

/-- `rewriteStmts`: `nil` slices are returned as `nil`, otherwise each
element is rewritten in order. -/
def rewriteStmts : Option (List Stmt) → Except GoNode (Option (List Stmt))
  | none => .ok none
  | some ss => do .ok (some (← rewriteStmtList ss))

/-- The `rewrite` cases whose scrutinee is an `ast.Decl`.  The `*ast.FuncDecl`
case rewrites `Body` (when non-`nil`) and `Type`; `Recv` is carried over by
the struct copy `c := *v` without being rewritten. -/
def rewriteDecl : Decl → Except GoNode Decl
  | .funcDecl recv name t b => do
      let b' ← rewriteBlockOpt b
      let t' ← rewriteFuncTy t
      .ok (.funcDecl recv name t' b')
  | .genDecl tok specs => do
      let specs' ← match specs with
        | none => pure none
        | some ss => do pure (some (← rewriteSpecList ss))
      .ok (.genDecl tok specs')
  | .badDecl => .error (.ofDecl .badDecl)

/-- The loop over `c.Specs` in the `*ast.GenDecl` case. -/
def rewriteSpecList : List Spec → Except GoNode (List Spec)
  | [] => .ok []
  | s :: ss => do
      let s' ← rewriteSpec s
      let ss' ← rewriteSpecList ss
      .ok (s' :: ss')

/-- The `rewrite` cases whose scrutinee is an `ast.Spec`.  `*ast.ImportSpec`
is a leaf (returned unchanged); the `*ast.ValueSpec` case rewrites only
`Values` — `Type` is carried over by the struct copy without being rewritten. -/
def rewriteSpec : Spec → Except GoNode Spec
  | .importSpec n p => .ok (.importSpec n p)
  | .typeSpec n t => do .ok (.typeSpec n (← rewriteExpr t))
  | .valueSpec ns t vs => do .ok (.valueSpec ns t (← rewriteExprs vs))

/-- The `*ast.CallExpr` case: `Fun` is rewritten, then
`Args = append([]ast.Expr{ast.NewIdent(ctxVariable)}, rewriteExprs(Args)...)`. -/
def rewriteCallE : CallE → Except GoNode CallE
  | .mk f args => do
      let f' ← rewriteExpr f
      let args' ← rewriteExprs args
      .ok (.mk f' (some (Expr.ident ctxVariable :: args'.getD [])))

/-- The `*ast.BlockStmt` case: `c.List = rewriteStmts(c.List)`. -/
def rewriteBlock : Block → Except GoNode Block
  | .mk l => do .ok (.mk (← rewriteStmts l))

/-- An `if c.Body != nil { c.Body = rewrite(c.Body).(*ast.BlockStmt) }` guard. -/
def rewriteBlockOpt : Option Block → Except GoNode (Option Block)
  | none => .ok none
  | some b => do .ok (some (← rewriteBlock b))

/-- The `*ast.Field` case: only `Type` is rewritten. -/
def rewriteField : Field → Except GoNode Field
  | .mk ns t tag => do .ok (.mk ns (← rewriteExpr t) tag)

/-- The loop over `c.List` in the `*ast.FieldList` case. -/
def rewriteFieldList : List Field → Except GoNode (List Field)
  | [] => .ok []
  | f :: fs => do
      let f' ← rewriteField f
      let fs' ← rewriteFieldList fs
      .ok (f' :: fs')

/-- The `*ast.FieldList` case: a `nil` `List` stays `nil`, otherwise each
field is rewritten in order. -/
def rewriteFieldL : FieldL → Except GoNode FieldL
  | .mk none => .ok (.mk none)
  | .mk (some fs) => do .ok (.mk (some (← rewriteFieldList fs)))

/-- An `if c.Results != nil { ... }` guard. -/
def rewriteFieldLOpt : Option FieldL → Except GoNode (Option FieldL)
  | none => .ok none
  | some fl => do .ok (some (← rewriteFieldL fl))

/-- The `*ast.FuncType` case: `Params` is rewritten, then
`c.Params.List = append([]*ast.Field{ctxField}, c.Params.List...)` (so the new
list is non-`nil` even when the original was `nil`), and `Results` is
rewritten when non-`nil` with no injection. -/
def rewriteFuncTy : FuncTy → Except GoNode FuncTy
  | .mk params results => do
      let p ← rewriteFieldL params
      let r ← rewriteFieldLOpt results
      .ok (.mk (.mk (some (ctxField :: p.listOrNil))) r)

end

/-- The loop over `c.Decls` in the `*ast.File` case (a `nil` slice iterates
zero times). -/
def rewriteDeclList : List Decl → Except GoNode (List Decl)
  | [] => .ok []
  | d :: ds => do
      let d' ← rewriteDecl d
      let ds' ← rewriteDeclList ds
      .ok (d' :: ds')

/-- The `*ast.File` case: `new_decls` starts with the synthetic import
declaration, then every original declaration is rewritten and appended. -/
def rewriteFile : File → Except GoNode File
  | ⟨name, decls⟩ => do
      let ds' ← rewriteDeclList (decls.getD [])
      .ok ⟨name, some (contextImportDecl :: ds')⟩

/-! ## The surrounding CLI driver

`ProcessFile` and `main` from the source, modelled at the boundary of the
external parser/printer: parsing and printing themselves are external, so a
file is taken as an already-parsed tree and "printing" stores the rewritten
tree. -/

/-- The observable content of `ProcessFile`'s destination: in overwrite mode
the destination is the source file itself. -/
inductive FileDest where
  | original
  | truncated
  | written (out : File)

/-- `ProcessFile` with `inplace` set: `os.Create(filename)` truncates the
destination file first, and only then is the argument `rewrite(f)` of
`printer.Fprint(out, fset, rewrite(f))` evaluated — a panic in `rewrite`
escapes before anything is printed, leaving the truncated file; otherwise the
rewritten tree is printed.  With `inplace` unset the destination is
`os.Stdout` and the source file is never touched. -/
def processFileDest (f : File) (inplace : Bool) : FileDest :=
  if inplace then
    match rewriteFile f with
    | .error _ => .truncated
    | .ok out => .written out
  else .original

/-- The outcome `ProcessFile(filename, *inplaceFlag)` reports for one
command-line argument (its parse and print steps are external, so the
outcome is taken as given per input). -/
inductive InputOutcome where
  | success
  | failure

/-- `main`: loop over `flag.Args()`; on the first input whose `ProcessFile`
returns a non-nil error, print the error and `break`.  The result records one
entry per input actually processed: `true` for success, `false` for the
failure that stopped the loop. -/
def mainLoop : List InputOutcome → List Bool
  | [] => []
  | .failure :: _ => [false]
  | .success :: rest => true :: mainLoop rest

/-! ## Helper lemmas -/

/-- Inversion of a successful `Except` bind. -/
theorem bind_ok_inv {α β : Type} {x : Except GoNode α} {f : α → Except GoNode β}
    {b : β} (h : x >>= f = .ok b) : ∃ a, x = .ok a ∧ f a = .ok b := by
  cases hx : x with
  | error e => rw [hx] at h; simp [Bind.bind, Except.bind] at h
  | ok a =>
    rw [hx] at h
    simp only [Bind.bind, Except.bind] at h
    exact ⟨a, rfl, h⟩

/-- A successful `rewriteFieldList` rewrites each field in order. -/
theorem rewriteFieldList_forall₂ :
    ∀ {fs fs' : List Field}, rewriteFieldList fs = .ok fs' →
      List.Forall₂ (fun a b => rewriteField a = .ok b) fs fs' := by
  intro fs
  induction fs with
  | nil =>
    intro fs' h
    simp only [rewriteFieldList, Except.ok.injEq] at h
    subst h
    exact List.Forall₂.nil
  | cons f rest ih =>
    intro fs' h
    simp only [rewriteFieldList] at h
    obtain ⟨f', hf, h⟩ := bind_ok_inv h
    obtain ⟨rest', hrest, h⟩ := bind_ok_inv h
    simp only [Except.ok.injEq] at h
    subst h
    exact List.Forall₂.cons hf (ih hrest)

/-- A successful `rewriteFieldL` rewrites the underlying field list
element-wise, in order (`nil` lists stay `nil`, hence empty). -/
theorem rewriteFieldL_ok {fl fl' : FieldL} (h : rewriteFieldL fl = .ok fl') :
    List.Forall₂ (fun a b => rewriteField a = .ok b) fl.listOrNil fl'.listOrNil := by
  cases fl with
  | mk l =>
    cases l with
    | none =>
      simp only [rewriteFieldL, Except.ok.injEq] at h
      subst h
      exact List.Forall₂.nil
    | some fs =>
      simp only [rewriteFieldL] at h
      obtain ⟨fs', hfs, h⟩ := bind_ok_inv h
      simp only [Except.ok.injEq] at h
      subst h
      simpa [FieldL.listOrNil] using rewriteFieldList_forall₂ hfs

/-- A successful `rewriteExprList` rewrites each expression in order. -/
theorem rewriteExprList_forall₂ :
    ∀ {es es' : List Expr}, rewriteExprList es = .ok es' →
      List.Forall₂ (fun a b => rewriteExpr a = .ok b) es es' := by
  intro es
  induction es with
  | nil =>
    intro es' h
    simp only [rewriteExprList, Except.ok.injEq] at h
    subst h
    exact List.Forall₂.nil
  | cons e rest ih =>
    intro es' h
    simp only [rewriteExprList] at h
    obtain ⟨e', he, h⟩ := bind_ok_inv h
    obtain ⟨rest', hrest, h⟩ := bind_ok_inv h
    simp only [Except.ok.injEq] at h
    subst h
    exact List.Forall₂.cons he (ih hrest)

/-- A successful `rewriteDeclList` rewrites each declaration in order. -/
theorem rewriteDeclList_forall₂ :
    ∀ {ds ds' : List Decl}, rewriteDeclList ds = .ok ds' →
      List.Forall₂ (fun a b => rewriteDecl a = .ok b) ds ds' := by
  intro ds
  induction ds with
  | nil =>
    intro ds' h
    simp only [rewriteDeclList, Except.ok.injEq] at h
    subst h
    exact List.Forall₂.nil
  | cons d rest ih =>
    intro ds' h
    simp only [rewriteDeclList] at h
    obtain ⟨d', hd, h⟩ := bind_ok_inv h
    obtain ⟨rest', hrest, h⟩ := bind_ok_inv h
    simp only [Except.ok.injEq] at h
    subst h
    exact List.Forall₂.cons hd (ih hrest)

/-- A successful `rewriteStmtList` rewrites each statement in order. -/
theorem rewriteStmtList_forall₂ :
    ∀ {ss ss' : List Stmt}, rewriteStmtList ss = .ok ss' →
      List.Forall₂ (fun a b => rewriteStmt a = .ok b) ss ss' := by
  intro ss
  induction ss with
  | nil =>
    intro ss' h
    simp only [rewriteStmtList, Except.ok.injEq] at h
    subst h
    exact List.Forall₂.nil
  | cons s rest ih =>
    intro ss' h
    simp only [rewriteStmtList] at h
    obtain ⟨s', hs, h⟩ := bind_ok_inv h
    obtain ⟨rest', hrest, h⟩ := bind_ok_inv h
    simp only [Except.ok.injEq] at h
    subst h
    exact List.Forall₂.cons hs (ih hrest)

/-- A successful `rewriteSpecList` rewrites each spec in order. -/
theorem rewriteSpecList_forall₂ :
    ∀ {ss ss' : List Spec}, rewriteSpecList ss = .ok ss' →
      List.Forall₂ (fun a b => rewriteSpec a = .ok b) ss ss' := by
  intro ss
  induction ss with
  | nil =>
    intro ss' h
    simp only [rewriteSpecList, Except.ok.injEq] at h
    subst h
    exact List.Forall₂.nil
  | cons s rest ih =>
    intro ss' h
    simp only [rewriteSpecList] at h
    obtain ⟨s', hs, h⟩ := bind_ok_inv h
    obtain ⟨rest', hrest, h⟩ := bind_ok_inv h
    simp only [Except.ok.injEq] at h
    subst h
    exact List.Forall₂.cons hs (ih hrest)

/-! ## Claim theorems -/

/-- C1: whenever the rewrite reaches a function-type node (the type of a
function declaration or of a function literal included), the rewritten node's
parameter list is exactly one synthetic leading parameter — named `ctx`, of
qualified type `context.Context` — followed by the rewritten original
parameters in their original order; this holds also when the original
parameter list is empty (or a `nil` slice), and the result list, when present,
is rewritten element-wise with no parameter injected into it. -/
theorem funcType_param_injection :
    (∀ (params : FieldL) (results : Option FieldL) (out : FuncTy),
      rewriteFuncTy (.mk params results) = .ok out →
      ∃ pl : List Field,
        List.Forall₂ (fun a b => rewriteField a = .ok b) params.listOrNil pl ∧
        ∃ results' : Option FieldL,
          out = .mk (.mk (some (ctxField :: pl))) results' ∧
          (results = none → results' = none) ∧
          (∀ rl : FieldL, results = some rl →
            ∃ rl' : FieldL, results' = some rl' ∧
              List.Forall₂ (fun a b => rewriteField a = .ok b)
                rl.listOrNil rl'.listOrNil)) ∧
    (∀ (recv : Option FieldL) (name : String) (t : FuncTy) (b : Option Block)
        (out : Decl),
      rewriteDecl (.funcDecl recv name t b) = .ok out →
      ∃ t' b', rewriteFuncTy t = .ok t' ∧ rewriteBlockOpt b = .ok b' ∧
        out = .funcDecl recv name t' b') ∧
    (∀ (t : FuncTy) (b : Option Block) (out : Expr),
      rewriteExpr (.funcLit t b) = .ok out →
      ∃ t' b', rewriteFuncTy t = .ok t' ∧ rewriteBlockOpt b = .ok b' ∧
        out = .funcLit t' b') := by
  refine ⟨?_, ?_, ?_⟩
  · intro params results out h
    simp only [rewriteFuncTy] at h
    obtain ⟨p, hp, h⟩ := bind_ok_inv h
    obtain ⟨r, hr, h⟩ := bind_ok_inv h
    simp only [Except.ok.injEq] at h
    subst h
    refine ⟨p.listOrNil, rewriteFieldL_ok hp, r, rfl, ?_, ?_⟩
    · intro hnone
      subst hnone
      simp only [rewriteFieldLOpt, Except.ok.injEq] at hr
      exact hr.symm
    · intro rl hsome
      subst hsome
      simp only [rewriteFieldLOpt] at hr
      obtain ⟨rl', hrl, hr⟩ := bind_ok_inv hr
      simp only [Except.ok.injEq] at hr
      exact ⟨rl', hr.symm, rewriteFieldL_ok hrl⟩
  · intro recv name t b out h
    simp only [rewriteDecl] at h
    obtain ⟨b', hb, h⟩ := bind_ok_inv h
    obtain ⟨t', ht, h⟩ := bind_ok_inv h
    simp only [Except.ok.injEq] at h
    exact ⟨t', b', ht, hb, h.symm⟩
  · intro t b out h
    simp only [rewriteExpr] at h
    obtain ⟨t', ht, h⟩ := bind_ok_inv h
    obtain ⟨b', hb, h⟩ := bind_ok_inv h
    simp only [Except.ok.injEq] at h
    exact ⟨t', b', ht, hb, h.symm⟩

/-- Witness for C1: the empty-parameter function type `func()` is rewritten to
`func(ctx context.Context)`, via `funcType_param_injection` applied at that
concrete input. -/
theorem funcType_param_injection_witness :
    ∃ pl : List Field,
      List.Forall₂ (fun a b => rewriteField a = .ok b)
        (FieldL.mk none).listOrNil pl ∧
      ∃ results' : Option FieldL,
        FuncTy.mk (.mk (some [ctxField])) none
          = .mk (.mk (some (ctxField :: pl))) results' ∧
        ((none : Option FieldL) = none → results' = none) ∧
        (∀ rl : FieldL, (none : Option FieldL) = some rl →
          ∃ rl' : FieldL, results' = some rl' ∧
            List.Forall₂ (fun a b => rewriteField a = .ok b)
              rl.listOrNil rl'.listOrNil) :=
  funcType_param_injection.1 (.mk none) none (.mk (.mk (some [ctxField])) none) rfl

/-- C2: a rewritten call expression consists of the rewritten original
callee and an argument list made of one synthetic leading `ctx` identifier
followed by the rewritten original arguments in their original order; the
calls embedded in `defer` and `go` statements are rewritten by this very rule
while the enclosing statement is otherwise cloned with only its call child
replaced. -/
theorem callExpr_arg_injection :
    (∀ (f : Expr) (args : Option (List Expr)) (out : CallE),
      rewriteCallE (.mk f args) = .ok out →
      ∃ f', rewriteExpr f = .ok f' ∧
        ∃ args' : List Expr,
          List.Forall₂ (fun a b => rewriteExpr a = .ok b) (args.getD []) args' ∧
          out = .mk f' (some (.ident ctxVariable :: args'))) ∧
    (∀ (c : CallE) (out : Expr), rewriteExpr (.callExpr c) = .ok out →
      ∃ c', rewriteCallE c = .ok c' ∧ out = .callExpr c') ∧
    (∀ (c : CallE) (out : Stmt), rewriteStmt (.deferStmt c) = .ok out →
      ∃ c', rewriteCallE c = .ok c' ∧ out = .deferStmt c') ∧
    (∀ (c : CallE) (out : Stmt), rewriteStmt (.goStmt c) = .ok out →
      ∃ c', rewriteCallE c = .ok c' ∧ out = .goStmt c') := by
  refine ⟨?_, ?_, ?_, ?_⟩
  · intro f args out h
    simp only [rewriteCallE] at h
    obtain ⟨f', hf, h⟩ := bind_ok_inv h
    obtain ⟨args', hargs, h⟩ := bind_ok_inv h
    simp only [Except.ok.injEq] at h
    subst h
    refine ⟨f', hf, args'.getD [], ?_, rfl⟩
    cases args with
    | none =>
      simp only [rewriteExprs, Except.ok.injEq] at hargs
      subst hargs
      exact List.Forall₂.nil
    | some es =>
      simp only [rewriteExprs] at hargs
      obtain ⟨es', hes, hargs⟩ := bind_ok_inv hargs
      simp only [Except.ok.injEq] at hargs
      subst hargs
      simpa using rewriteExprList_forall₂ hes
  · intro c out h
    simp only [rewriteExpr] at h
    obtain ⟨c', hc, h⟩ := bind_ok_inv h
    simp only [Except.ok.injEq] at h
    exact ⟨c', hc, h.symm⟩
  · intro c out h
    simp only [rewriteStmt] at h
    obtain ⟨c', hc, h⟩ := bind_ok_inv h
    simp only [Except.ok.injEq] at h
    exact ⟨c', hc, h.symm⟩
  · intro c out h
    simp only [rewriteStmt] at h
    obtain ⟨c', hc, h⟩ := bind_ok_inv h
    simp only [Except.ok.injEq] at h
    exact ⟨c', hc, h.symm⟩

/-- Witness for C2: the call `f(x)` is rewritten to `f(ctx, x)`, via
`callExpr_arg_injection` applied at that concrete input. -/
theorem callExpr_arg_injection_witness :
    ∃ f', rewriteExpr (.ident "f") = .ok f' ∧
      ∃ args' : List Expr,
        List.Forall₂ (fun a b => rewriteExpr a = .ok b)
          ((some [Expr.ident "x"]).getD []) args' ∧
        CallE.mk (.ident "f") (some [.ident ctxVariable, .ident "x"])
          = .mk f' (some (.ident ctxVariable :: args')) :=
  callExpr_arg_injection.1 (.ident "f") (some [.ident "x"])
    (.mk (.ident "f") (some [.ident ctxVariable, .ident "x"])) rfl

/-- C3: a rewritten compilation unit with `N` top-level declarations has
`N + 1` declarations: the synthetic `golang.org/x/net/context` import first,
then the rewritten original declarations in their original order. -/
theorem file_prepends_context_import :
    ∀ (name : String) (decls : Option (List Decl)) (out : File),
      rewriteFile ⟨name, decls⟩ = .ok out →
      ∃ ds' : List Decl,
        List.Forall₂ (fun a b => rewriteDecl a = .ok b) (decls.getD []) ds' ∧
        out = ⟨name, some (contextImportDecl :: ds')⟩ ∧
        (contextImportDecl :: ds').length = (decls.getD []).length + 1 := by
  intro name decls out h
  simp only [rewriteFile] at h
  obtain ⟨ds', hds, h⟩ := bind_ok_inv h
  simp only [Except.ok.injEq] at h
  subst h
  have hrel := rewriteDeclList_forall₂ hds
  exact ⟨ds', hrel, rfl, by simp [hrel.length_eq]⟩

/-- Witness for C3: a file with one declaration is rewritten to a file with
two declarations headed by the synthetic import, via
`file_prepends_context_import` at that concrete input. -/
theorem file_prepends_context_import_witness :
    ∃ ds' : List Decl,
      List.Forall₂ (fun a b => rewriteDecl a = .ok b)
        ((some [Decl.genDecl "var" none]).getD []) ds' ∧
      (⟨"main", some (contextImportDecl :: [Decl.genDecl "var" none])⟩ : File)
        = ⟨"main", some (contextImportDecl :: ds')⟩ ∧
      (contextImportDecl :: ds').length
        = ((some [Decl.genDecl "var" none]).getD []).length + 1 :=
  file_prepends_context_import "main" (some [.genDecl "var" none])
    ⟨"main", some [contextImportDecl, .genDecl "var" none]⟩ rfl

/-- C5: a node whose kind has no case in the type switch (`ast.BadExpr`,
`ast.BadStmt`, `ast.BadDecl`) makes the rewrite hit the `default:
panic(node)` branch: the result is the fatal condition carrying the offending
node, never a rewritten tree. -/
theorem unknown_node_kind_panics :
    rewriteExpr .badExpr = .error (.ofExpr .badExpr) ∧
    rewriteStmt .badStmt = .error (.ofStmt .badStmt) ∧
    rewriteDecl .badDecl = .error (.ofDecl .badDecl) :=
  ⟨rfl, rfl, rfl⟩

/-- C7: pure-leaf nodes — literals, identifiers, import specs, branch/jump
statements and empty statements — are returned unchanged by the rewrite. -/
theorem leaf_nodes_unchanged :
    (∀ v, rewriteExpr (.basicLit v) = .ok (.basicLit v)) ∧
    (∀ n, rewriteExpr (.ident n) = .ok (.ident n)) ∧
    (∀ n p, rewriteSpec (.importSpec n p) = .ok (.importSpec n p)) ∧
    (∀ tok lbl, rewriteStmt (.branchStmt tok lbl) = .ok (.branchStmt tok lbl)) ∧
    rewriteStmt .emptyStmt = .ok .emptyStmt :=
  ⟨fun _ => rfl, fun _ => rfl, fun _ _ => rfl, fun _ _ => rfl, rfl⟩

/-- Shape of a successful rewrite of a function-type expression: the `ctx`
parameter is always injected at the head of the parameter list. -/
theorem rewriteExpr_funcType_shape {ft : FuncTy} {out : Expr}
    (h : rewriteExpr (.funcType ft) = .ok out) :
    ∃ pl r', out = .funcType (.mk (.mk (some (ctxField :: pl))) r') := by
  simp only [rewriteExpr] at h
  obtain ⟨ft', hft, h⟩ := bind_ok_inv h
  simp only [Except.ok.injEq] at h
  subst h
  cases ft with
  | mk params results =>
    simp only [rewriteFuncTy] at hft
    obtain ⟨p, hp, hft⟩ := bind_ok_inv hft
    obtain ⟨r, hr, hft⟩ := bind_ok_inv hft
    simp only [Except.ok.injEq] at hft
    subst hft
    exact ⟨p.listOrNil, r, rfl⟩

/-- C4 counterexample: the type annotation of a value spec is passed through
unrewritten.  For `var f func()`, the rewrite returns the spec unchanged —
its `func()` annotation keeps an empty parameter list — while rewriting that
same annotation directly injects the `ctx` parameter, so the output child is
not the rewritten child. -/
theorem valueSpec_type_passthrough_cex :
    rewriteSpec (.valueSpec (some ["f"])
        (some (.funcType (.mk (.mk none) none))) none)
      = .ok (.valueSpec (some ["f"])
        (some (.funcType (.mk (.mk none) none))) none) ∧
    rewriteExpr (.funcType (.mk (.mk none) none))
      = .ok (.funcType (.mk (.mk (some [ctxField])) none)) ∧
    Expr.funcType (.mk (.mk none) none)
      ≠ .funcType (.mk (.mk (some [ctxField])) none) :=
  ⟨rfl, rfl, by simp⟩

/-- C4 (amended): for every non-leaf node kind of the taxonomy, every present
child slot that may hold a rewritable node — single child, ordered sequence,
or optional child — is recursively rewritten in the output node (absent
optional children stay absent, `nil` sequences stay `nil`, and sequences are
rewritten element-wise in their original order), with two exceptions: the
type annotation of a value (var/const) spec and the receiver list of a
function declaration are carried over by the struct copy without being
rewritten.  One conjunct per node kind and per child-slot shape. -/
theorem rewrite_children_recursively :
    -- optional single children: absent stays absent, present is rewritten
    (rewriteExprOpt none = .ok none) ∧
    (∀ e out, rewriteExprOpt (some e) = .ok out →
      ∃ e', rewriteExpr e = .ok e' ∧ out = some e') ∧
    (rewriteStmtOpt none = .ok none) ∧
    (∀ s out, rewriteStmtOpt (some s) = .ok out →
      ∃ s', rewriteStmt s = .ok s' ∧ out = some s') ∧
    (rewriteBlockOpt none = .ok none) ∧
    (∀ b out, rewriteBlockOpt (some b) = .ok out →
      ∃ b', rewriteBlock b = .ok b' ∧ out = some b') ∧
    (rewriteFieldLOpt none = .ok none) ∧
    (∀ fl out, rewriteFieldLOpt (some fl) = .ok out →
      ∃ fl', rewriteFieldL fl = .ok fl' ∧ out = some fl') ∧
    -- sequence children: nil stays nil, otherwise element-wise in order
    (rewriteExprs none = .ok none) ∧
    (∀ es out, rewriteExprs (some es) = .ok out →
      ∃ es', List.Forall₂ (fun a b => rewriteExpr a = .ok b) es es' ∧
        out = some es') ∧
    (rewriteStmts none = .ok none) ∧
    (∀ ss out, rewriteStmts (some ss) = .ok out →
      ∃ ss', List.Forall₂ (fun a b => rewriteStmt a = .ok b) ss ss' ∧
        out = some ss') ∧
    -- expression node kinds
    (∀ len elt out, rewriteExpr (.arrayType len elt) = .ok out →
      ∃ len' elt', rewriteExprOpt len = .ok len' ∧ rewriteExpr elt = .ok elt' ∧
        out = .arrayType len' elt') ∧
    (∀ x op y out, rewriteExpr (.binaryExpr x op y) = .ok out →
      ∃ x' y', rewriteExpr x = .ok x' ∧ rewriteExpr y = .ok y' ∧
        out = .binaryExpr x' op y') ∧
    (∀ c out, rewriteExpr (.callExpr c) = .ok out →
      ∃ c', rewriteCallE c = .ok c' ∧ out = .callExpr c') ∧
    (∀ dir v out, rewriteExpr (.chanType dir v) = .ok out →
      ∃ v', rewriteExpr v = .ok v' ∧ out = .chanType dir v') ∧
    (∀ t elts out, rewriteExpr (.compositeLit t elts) = .ok out →
      ∃ t' elts', rewriteExprOpt t = .ok t' ∧ rewriteExprs elts = .ok elts' ∧
        out = .compositeLit t' elts') ∧
    (∀ elt out, rewriteExpr (.ellipsis elt) = .ok out →
      ∃ elt', rewriteExprOpt elt = .ok elt' ∧ out = .ellipsis elt') ∧
    (∀ t b out, rewriteExpr (.funcLit t b) = .ok out →
      ∃ t' b', rewriteFuncTy t = .ok t' ∧ rewriteBlockOpt b = .ok b' ∧
        out = .funcLit t' b') ∧
    (∀ t out, rewriteExpr (.funcType t) = .ok out →
      ∃ t', rewriteFuncTy t = .ok t' ∧ out = .funcType t') ∧
    (∀ x i out, rewriteExpr (.indexExpr x i) = .ok out →
      ∃ x' i', rewriteExpr x = .ok x' ∧ rewriteExpr i = .ok i' ∧
        out = .indexExpr x' i') ∧
    (∀ ms out, rewriteExpr (.interfaceType ms) = .ok out →
      ∃ ms', rewriteFieldL ms = .ok ms' ∧ out = .interfaceType ms') ∧
    (∀ k v out, rewriteExpr (.keyValueExpr k v) = .ok out →
      ∃ k' v', rewriteExpr k = .ok k' ∧ rewriteExpr v = .ok v' ∧
        out = .keyValueExpr k' v') ∧
    (∀ k v out, rewriteExpr (.mapType k v) = .ok out →
      ∃ k' v', rewriteExpr k = .ok k' ∧ rewriteExpr v = .ok v' ∧
        out = .mapType k' v') ∧
    (∀ x out, rewriteExpr (.parenExpr x) = .ok out →
      ∃ x', rewriteExpr x = .ok x' ∧ out = .parenExpr x') ∧
    (∀ x sel out, rewriteExpr (.selectorExpr x sel) = .ok out →
      ∃ x', rewriteExpr x = .ok x' ∧ out = .selectorExpr x' sel) ∧
    (∀ x lo hi mx out, rewriteExpr (.sliceExpr x lo hi mx) = .ok out →
      ∃ x' lo' hi' mx', rewriteExpr x = .ok x' ∧ rewriteExprOpt lo = .ok lo' ∧
        rewriteExprOpt hi = .ok hi' ∧ rewriteExprOpt mx = .ok mx' ∧
        out = .sliceExpr x' lo' hi' mx') ∧
    (∀ x out, rewriteExpr (.starExpr x) = .ok out →
      ∃ x', rewriteExpr x = .ok x' ∧ out = .starExpr x') ∧
    (∀ fs out, rewriteExpr (.structType fs) = .ok out →
      ∃ fs', rewriteFieldL fs = .ok fs' ∧ out = .structType fs') ∧
    (∀ x t out, rewriteExpr (.typeAssertExpr x t) = .ok out →
      ∃ x' t', rewriteExprOpt x = .ok x' ∧ rewriteExprOpt t = .ok t' ∧
        out = .typeAssertExpr x' t') ∧
    (∀ op x out, rewriteExpr (.unaryExpr op x) = .ok out →
      ∃ x', rewriteExpr x = .ok x' ∧ out = .unaryExpr op x') ∧
    -- statement node kinds
    (∀ lhs tok rhs out, rewriteStmt (.assignStmt lhs tok rhs) = .ok out →
      ∃ lhs' rhs', rewriteExprs lhs = .ok lhs' ∧ rewriteExprs rhs = .ok rhs' ∧
        out = .assignStmt lhs' tok rhs') ∧
    (∀ b out, rewriteStmt (.blockStmt b) = .ok out →
      ∃ b', rewriteBlock b = .ok b' ∧ out = .blockStmt b') ∧
    (∀ l b out, rewriteStmt (.caseClause l b) = .ok out →
      ∃ l' b', rewriteExprs l = .ok l' ∧ rewriteStmts b = .ok b' ∧
        out = .caseClause l' b') ∧
    (∀ c b out, rewriteStmt (.commClause c b) = .ok out →
      ∃ c' b', rewriteStmtOpt c = .ok c' ∧ rewriteStmts b = .ok b' ∧
        out = .commClause c' b') ∧
    (∀ d out, rewriteStmt (.declStmt d) = .ok out →
      ∃ d', rewriteDecl d = .ok d' ∧ out = .declStmt d') ∧
    (∀ c out, rewriteStmt (.deferStmt c) = .ok out →
      ∃ c', rewriteCallE c = .ok c' ∧ out = .deferStmt c') ∧
    (∀ x out, rewriteStmt (.exprStmt x) = .ok out →
      ∃ x', rewriteExpr x = .ok x' ∧ out = .exprStmt x') ∧
    (∀ i c p b out, rewriteStmt (.forStmt i c p b) = .ok out →
      ∃ i' c' p' b', rewriteStmtOpt i = .ok i' ∧ rewriteExprOpt c = .ok c' ∧
        rewriteStmtOpt p = .ok p' ∧ rewriteBlockOpt b = .ok b' ∧
        out = .forStmt i' c' p' b') ∧
    (∀ c out, rewriteStmt (.goStmt c) = .ok out →
      ∃ c', rewriteCallE c = .ok c' ∧ out = .goStmt c') ∧
    (∀ i c b e out, rewriteStmt (.ifStmt i c b e) = .ok out →
      ∃ i' c' b' e', rewriteStmtOpt i = .ok i' ∧ rewriteExprOpt c = .ok c' ∧
        rewriteBlockOpt b = .ok b' ∧ rewriteStmtOpt e = .ok e' ∧
        out = .ifStmt i' c' b' e') ∧
    (∀ x tok out, rewriteStmt (.incDecStmt x tok) = .ok out →
      ∃ x', rewriteExpr x = .ok x' ∧ out = .incDecStmt x' tok) ∧
    (∀ lbl s out, rewriteStmt (.labeledStmt lbl s) = .ok out →
      ∃ s', rewriteStmt s = .ok s' ∧ out = .labeledStmt lbl s') ∧
    (∀ k v tok x b out, rewriteStmt (.rangeStmt k v tok x b) = .ok out →
      ∃ k' v' x' b', rewriteExprOpt k = .ok k' ∧ rewriteExprOpt v = .ok v' ∧
        rewriteExprOpt x = .ok x' ∧ rewriteBlockOpt b = .ok b' ∧
        out = .rangeStmt k' v' tok x' b') ∧
    (∀ rs out, rewriteStmt (.returnStmt rs) = .ok out →
      ∃ rs', rewriteExprs rs = .ok rs' ∧ out = .returnStmt rs') ∧
    (∀ b out, rewriteStmt (.selectStmt b) = .ok out →
      ∃ b', rewriteBlockOpt b = .ok b' ∧ out = .selectStmt b') ∧
    (∀ ch v out, rewriteStmt (.sendStmt ch v) = .ok out →
      ∃ ch' v', rewriteExprOpt ch = .ok ch' ∧ rewriteExprOpt v = .ok v' ∧
        out = .sendStmt ch' v') ∧
    (∀ i t b out, rewriteStmt (.switchStmt i t b) = .ok out →
      ∃ i' t' b', rewriteStmtOpt i = .ok i' ∧ rewriteExprOpt t = .ok t' ∧
        rewriteBlockOpt b = .ok b' ∧ out = .switchStmt i' t' b') ∧
    (∀ i a b out, rewriteStmt (.typeSwitchStmt i a b) = .ok out →
      ∃ i' a' b', rewriteStmtOpt i = .ok i' ∧ rewriteStmtOpt a = .ok a' ∧
        rewriteBlockOpt b = .ok b' ∧ out = .typeSwitchStmt i' a' b') ∧
    -- declarations, specs and the remaining concrete node kinds
    (∀ tok specs out, rewriteDecl (.genDecl tok specs) = .ok out →
      ∃ specs',
        (specs = none → specs' = none) ∧
        (∀ ss, specs = some ss → ∃ ss', specs' = some ss' ∧
          List.Forall₂ (fun a b => rewriteSpec a = .ok b) ss ss') ∧
        out = .genDecl tok specs') ∧
    (∀ n t out, rewriteSpec (.typeSpec n t) = .ok out →
      ∃ t', rewriteExpr t = .ok t' ∧ out = .typeSpec n t') ∧
    (∀ l out, rewriteBlock (.mk l) = .ok out →
      ∃ l', rewriteStmts l = .ok l' ∧ out = .mk l') ∧
    (∀ ns t tag out, rewriteField (.mk ns t tag) = .ok out →
      ∃ t', rewriteExpr t = .ok t' ∧ out = .mk ns t' tag) ∧
    (rewriteFieldL (.mk none) = .ok (.mk none)) ∧
    (∀ fs out, rewriteFieldL (.mk (some fs)) = .ok out →
      ∃ fs', out = .mk (some fs') ∧
        List.Forall₂ (fun a b => rewriteField a = .ok b) fs fs') ∧
    (∀ f args out, rewriteCallE (.mk f args) = .ok out →
      ∃ f' args', rewriteExpr f = .ok f' ∧ rewriteExprs args = .ok args' ∧
        out = .mk f' (some (.ident ctxVariable :: args'.getD []))) ∧
    (∀ params results out, rewriteFuncTy (.mk params results) = .ok out →
      ∃ p r, rewriteFieldL params = .ok p ∧ rewriteFieldLOpt results = .ok r ∧
        out = .mk (.mk (some (ctxField :: p.listOrNil))) r) ∧
    (∀ (name : String) (decls : Option (List Decl)) (out : File),
      rewriteFile ⟨name, decls⟩ = .ok out →
      ∃ ds', List.Forall₂ (fun a b => rewriteDecl a = .ok b) (decls.getD []) ds' ∧
        out = ⟨name, some (contextImportDecl :: ds')⟩) ∧
    -- the two exceptions: the slots below are passed through unrewritten
    (∀ ns t vs out, rewriteSpec (.valueSpec ns t vs) = .ok out →
      ∃ vs', rewriteExprs vs = .ok vs' ∧ out = .valueSpec ns t vs') ∧
    (∀ recv name t b out, rewriteDecl (.funcDecl recv name t b) = .ok out →
      ∃ t' b', rewriteFuncTy t = .ok t' ∧ rewriteBlockOpt b = .ok b' ∧
        out = .funcDecl recv name t' b') := by
  refine ⟨?_, ?_, ?_, ?_, ?_, ?_, ?_, ?_, ?_, ?_, ?_, ?_,
    ?_, ?_, ?_, ?_, ?_, ?_, ?_, ?_, ?_, ?_, ?_, ?_, ?_, ?_, ?_, ?_, ?_, ?_, ?_,
    ?_, ?_, ?_, ?_, ?_, ?_, ?_, ?_, ?_, ?_, ?_, ?_, ?_, ?_, ?_, ?_, ?_, ?_,
    ?_, ?_, ?_, ?_, ?_, ?_, ?_, ?_, ?_, ?_, ?_⟩
  · rfl
  · intro e out h
    simp only [rewriteExprOpt] at h
    obtain ⟨e', he, h⟩ := bind_ok_inv h
    simp only [Except.ok.injEq] at h
    exact ⟨e', he, h.symm⟩
  · rfl
  · intro s out h
    simp only [rewriteStmtOpt] at h
    obtain ⟨s', hs, h⟩ := bind_ok_inv h
    simp only [Except.ok.injEq] at h
    exact ⟨s', hs, h.symm⟩
  · rfl
  · intro b out h
    simp only [rewriteBlockOpt] at h
    obtain ⟨b', hb, h⟩ := bind_ok_inv h
    simp only [Except.ok.injEq] at h
    exact ⟨b', hb, h.symm⟩
  · rfl
  · intro fl out h
    simp only [rewriteFieldLOpt] at h
    obtain ⟨fl', hfl, h⟩ := bind_ok_inv h
    simp only [Except.ok.injEq] at h
    exact ⟨fl', hfl, h.symm⟩
  · rfl
  · intro es out h
    simp only [rewriteExprs] at h
    obtain ⟨es', hes, h⟩ := bind_ok_inv h
    simp only [Except.ok.injEq] at h
    exact ⟨es', rewriteExprList_forall₂ hes, h.symm⟩
  · rfl
  · intro ss out h
    simp only [rewriteStmts] at h
    obtain ⟨ss', hss, h⟩ := bind_ok_inv h
    simp only [Except.ok.injEq] at h
    exact ⟨ss', rewriteStmtList_forall₂ hss, h.symm⟩
  · intro len elt out h
    simp only [rewriteExpr] at h
    obtain ⟨len', hlen, h⟩ := bind_ok_inv h
    obtain ⟨elt', helt, h⟩ := bind_ok_inv h
    simp only [Except.ok.injEq] at h
    exact ⟨len', elt', hlen, helt, h.symm⟩
  · intro x op y out h
    simp only [rewriteExpr] at h
    obtain ⟨x', hx, h⟩ := bind_ok_inv h
    obtain ⟨y', hy, h⟩ := bind_ok_inv h
    simp only [Except.ok.injEq] at h
    exact ⟨x', y', hx, hy, h.symm⟩
  · intro c out h
    simp only [rewriteExpr] at h
    obtain ⟨c', hc, h⟩ := bind_ok_inv h
    simp only [Except.ok.injEq] at h
    exact ⟨c', hc, h.symm⟩
  · intro dir v out h
    simp only [rewriteExpr] at h
    obtain ⟨v', hv, h⟩ := bind_ok_inv h
    simp only [Except.ok.injEq] at h
    exact ⟨v', hv, h.symm⟩
  · intro t elts out h
    simp only [rewriteExpr] at h
    obtain ⟨t', ht, h⟩ := bind_ok_inv h
    obtain ⟨elts', helts, h⟩ := bind_ok_inv h
    simp only [Except.ok.injEq] at h
    exact ⟨t', elts', ht, helts, h.symm⟩
  · intro elt out h
    simp only [rewriteExpr] at h
    obtain ⟨elt', helt, h⟩ := bind_ok_inv h
    simp only [Except.ok.injEq] at h
    exact ⟨elt', helt, h.symm⟩
  · intro t b out h
    simp only [rewriteExpr] at h
    obtain ⟨t', ht, h⟩ := bind_ok_inv h
    obtain ⟨b', hb, h⟩ := bind_ok_inv h
    simp only [Except.ok.injEq] at h
    exact ⟨t', b', ht, hb, h.symm⟩
  · intro t out h
    simp only [rewriteExpr] at h
    obtain ⟨t', ht, h⟩ := bind_ok_inv h
    simp only [Except.ok.injEq] at h
    exact ⟨t', ht, h.symm⟩
  · intro x i out h
    simp only [rewriteExpr] at h
    obtain ⟨x', hx, h⟩ := bind_ok_inv h
    obtain ⟨i', hi, h⟩ := bind_ok_inv h
    simp only [Except.ok.injEq] at h
    exact ⟨x', i', hx, hi, h.symm⟩
  · intro ms out h
    simp only [rewriteExpr] at h
    obtain ⟨ms', hms, h⟩ := bind_ok_inv h
    simp only [Except.ok.injEq] at h
    exact ⟨ms', hms, h.symm⟩
  · intro k v out h
    simp only [rewriteExpr] at h
    obtain ⟨k', hk, h⟩ := bind_ok_inv h
    obtain ⟨v', hv, h⟩ := bind_ok_inv h
    simp only [Except.ok.injEq] at h
    exact ⟨k', v', hk, hv, h.symm⟩
  · intro k v out h
    simp only [rewriteExpr] at h
    obtain ⟨k', hk, h⟩ := bind_ok_inv h
    obtain ⟨v', hv, h⟩ := bind_ok_inv h
    simp only [Except.ok.injEq] at h
    exact ⟨k', v', hk, hv, h.symm⟩
  · intro x out h
    simp only [rewriteExpr] at h
    obtain ⟨x', hx, h⟩ := bind_ok_inv h
    simp only [Except.ok.injEq] at h
    exact ⟨x', hx, h.symm⟩
  · intro x sel out h
    simp only [rewriteExpr] at h
    obtain ⟨x', hx, h⟩ := bind_ok_inv h
    simp only [Except.ok.injEq] at h
    exact ⟨x', hx, h.symm⟩
  · intro x lo hi mx out h
    simp only [rewriteExpr] at h
    obtain ⟨x', hx, h⟩ := bind_ok_inv h
    obtain ⟨lo', hlo, h⟩ := bind_ok_inv h
    obtain ⟨hi', hhi, h⟩ := bind_ok_inv h
    obtain ⟨mx', hmx, h⟩ := bind_ok_inv h
    simp only [Except.ok.injEq] at h
    exact ⟨x', lo', hi', mx', hx, hlo, hhi, hmx, h.symm⟩
  · intro x out h
    simp only [rewriteExpr] at h
    obtain ⟨x', hx, h⟩ := bind_ok_inv h
    simp only [Except.ok.injEq] at h
    exact ⟨x', hx, h.symm⟩
  · intro fs out h
    simp only [rewriteExpr] at h
    obtain ⟨fs', hfs, h⟩ := bind_ok_inv h
    simp only [Except.ok.injEq] at h
    exact ⟨fs', hfs, h.symm⟩
  · intro x t out h
    simp only [rewriteExpr] at h
    obtain ⟨x', hx, h⟩ := bind_ok_inv h
    obtain ⟨t', ht, h⟩ := bind_ok_inv h
    simp only [Except.ok.injEq] at h
    exact ⟨x', t', hx, ht, h.symm⟩
  · intro op x out h
    simp only [rewriteExpr] at h
    obtain ⟨x', hx, h⟩ := bind_ok_inv h
    simp only [Except.ok.injEq] at h
    exact ⟨x', hx, h.symm⟩
  · intro lhs tok rhs out h
    simp only [rewriteStmt] at h
    obtain ⟨lhs', hlhs, h⟩ := bind_ok_inv h
    obtain ⟨rhs', hrhs, h⟩ := bind_ok_inv h
    simp only [Except.ok.injEq] at h
    exact ⟨lhs', rhs', hlhs, hrhs, h.symm⟩
  · intro b out h
    simp only [rewriteStmt] at h
    obtain ⟨b', hb, h⟩ := bind_ok_inv h
    simp only [Except.ok.injEq] at h
    exact ⟨b', hb, h.symm⟩
  · intro l b out h
    simp only [rewriteStmt] at h
    obtain ⟨l', hl, h⟩ := bind_ok_inv h
    obtain ⟨b', hb, h⟩ := bind_ok_inv h
    simp only [Except.ok.injEq] at h
    exact ⟨l', b', hl, hb, h.symm⟩
  · intro c b out h
    simp only [rewriteStmt] at h
    obtain ⟨c', hc, h⟩ := bind_ok_inv h
    obtain ⟨b', hb, h⟩ := bind_ok_inv h
    simp only [Except.ok.injEq] at h
    exact ⟨c', b', hc, hb, h.symm⟩
  · intro d out h
    simp only [rewriteStmt] at h
    obtain ⟨d', hd, h⟩ := bind_ok_inv h
    simp only [Except.ok.injEq] at h
    exact ⟨d', hd, h.symm⟩
  · intro c out h
    simp only [rewriteStmt] at h
    obtain ⟨c', hc, h⟩ := bind_ok_inv h
    simp only [Except.ok.injEq] at h
    exact ⟨c', hc, h.symm⟩
  · intro x out h
    simp only [rewriteStmt] at h
    obtain ⟨x', hx, h⟩ := bind_ok_inv h
    simp only [Except.ok.injEq] at h
    exact ⟨x', hx, h.symm⟩
  · intro i c p b out h
    simp only [rewriteStmt] at h
    obtain ⟨i', hi, h⟩ := bind_ok_inv h
    obtain ⟨c', hc, h⟩ := bind_ok_inv h
    obtain ⟨p', hp, h⟩ := bind_ok_inv h
    obtain ⟨b', hb, h⟩ := bind_ok_inv h
    simp only [Except.ok.injEq] at h
    exact ⟨i', c', p', b', hi, hc, hp, hb, h.symm⟩
  · intro c out h
    simp only [rewriteStmt] at h
    obtain ⟨c', hc, h⟩ := bind_ok_inv h
    simp only [Except.ok.injEq] at h
    exact ⟨c', hc, h.symm⟩
  · intro i c b e out h
    simp only [rewriteStmt] at h
    obtain ⟨i', hi, h⟩ := bind_ok_inv h
    obtain ⟨c', hc, h⟩ := bind_ok_inv h
    obtain ⟨b', hb, h⟩ := bind_ok_inv h
    obtain ⟨e', he, h⟩ := bind_ok_inv h
    simp only [Except.ok.injEq] at h
    exact ⟨i', c', b', e', hi, hc, hb, he, h.symm⟩
  · intro x tok out h
    simp only [rewriteStmt] at h
    obtain ⟨x', hx, h⟩ := bind_ok_inv h
    simp only [Except.ok.injEq] at h
    exact ⟨x', hx, h.symm⟩
  · intro lbl s out h
    simp only [rewriteStmt] at h
    obtain ⟨s', hs, h⟩ := bind_ok_inv h
    simp only [Except.ok.injEq] at h
    exact ⟨s', hs, h.symm⟩
  · intro k v tok x b out h
    simp only [rewriteStmt] at h
    obtain ⟨k', hk, h⟩ := bind_ok_inv h
    obtain ⟨v', hv, h⟩ := bind_ok_inv h
    obtain ⟨x', hx, h⟩ := bind_ok_inv h
    obtain ⟨b', hb, h⟩ := bind_ok_inv h
    simp only [Except.ok.injEq] at h
    exact ⟨k', v', x', b', hk, hv, hx, hb, h.symm⟩
  · intro rs out h
    simp only [rewriteStmt] at h
    obtain ⟨rs', hrs, h⟩ := bind_ok_inv h
    simp only [Except.ok.injEq] at h
    exact ⟨rs', hrs, h.symm⟩
  · intro b out h
    simp only [rewriteStmt] at h
    obtain ⟨b', hb, h⟩ := bind_ok_inv h
    simp only [Except.ok.injEq] at h
    exact ⟨b', hb, h.symm⟩
  · intro ch v out h
    simp only [rewriteStmt] at h
    obtain ⟨ch', hch, h⟩ := bind_ok_inv h
    obtain ⟨v', hv, h⟩ := bind_ok_inv h
    simp only [Except.ok.injEq] at h
    exact ⟨ch', v', hch, hv, h.symm⟩
  · intro i t b out h
    simp only [rewriteStmt] at h
    obtain ⟨i', hi, h⟩ := bind_ok_inv h
    obtain ⟨t', ht, h⟩ := bind_ok_inv h
    obtain ⟨b', hb, h⟩ := bind_ok_inv h
    simp only [Except.ok.injEq] at h
    exact ⟨i', t', b', hi, ht, hb, h.symm⟩
  · intro i a b out h
    simp only [rewriteStmt] at h
    obtain ⟨i', hi, h⟩ := bind_ok_inv h
    obtain ⟨a', ha, h⟩ := bind_ok_inv h
    obtain ⟨b', hb, h⟩ := bind_ok_inv h
    simp only [Except.ok.injEq] at h
    exact ⟨i', a', b', hi, ha, hb, h.symm⟩
  · intro tok specs out h
    cases specs with
    | none =>
      simp only [rewriteDecl] at h
      obtain ⟨y, hy, h⟩ := bind_ok_inv h
      simp only [pure, Except.pure, Except.ok.injEq] at hy
      subst hy
      simp only [Except.ok.injEq] at h
      refine ⟨none, fun _ => rfl, ?_, h.symm⟩
      intro ss0 hsome
      simp at hsome
    | some ss =>
      simp only [rewriteDecl] at h
      obtain ⟨ss', hss, h⟩ := bind_ok_inv h
      obtain ⟨y, hy, h⟩ := bind_ok_inv h
      simp only [pure, Except.pure, Except.ok.injEq] at hy
      subst hy
      simp only [Except.ok.injEq] at h
      refine ⟨some ss', ?_, ?_, h.symm⟩
      · intro hnone
        simp at hnone
      · intro ss0 hsome
        injection hsome with hss0
        subst hss0
        exact ⟨ss', rfl, rewriteSpecList_forall₂ hss⟩
  · intro n t out h
    simp only [rewriteSpec] at h
    obtain ⟨t', ht, h⟩ := bind_ok_inv h
    simp only [Except.ok.injEq] at h
    exact ⟨t', ht, h.symm⟩
  · intro l out h
    simp only [rewriteBlock] at h
    obtain ⟨l', hl, h⟩ := bind_ok_inv h
    simp only [Except.ok.injEq] at h
    exact ⟨l', hl, h.symm⟩
  · intro ns t tag out h
    simp only [rewriteField] at h
    obtain ⟨t', ht, h⟩ := bind_ok_inv h
    simp only [Except.ok.injEq] at h
    exact ⟨t', ht, h.symm⟩
  · rfl
  · intro fs out h
    simp only [rewriteFieldL] at h
    obtain ⟨fs', hfs, h⟩ := bind_ok_inv h
    simp only [Except.ok.injEq] at h
    exact ⟨fs', h.symm, rewriteFieldList_forall₂ hfs⟩
  · intro f args out h
    simp only [rewriteCallE] at h
    obtain ⟨f', hf, h⟩ := bind_ok_inv h
    obtain ⟨args', hargs, h⟩ := bind_ok_inv h
    simp only [Except.ok.injEq] at h
    exact ⟨f', args', hf, hargs, h.symm⟩
  · intro params results out h
    simp only [rewriteFuncTy] at h
    obtain ⟨p, hp, h⟩ := bind_ok_inv h
    obtain ⟨r, hr, h⟩ := bind_ok_inv h
    simp only [Except.ok.injEq] at h
    exact ⟨p, r, hp, hr, h.symm⟩
  · intro name decls out h
    simp only [rewriteFile] at h
    obtain ⟨ds', hds, h⟩ := bind_ok_inv h
    simp only [Except.ok.injEq] at h
    exact ⟨ds', rewriteDeclList_forall₂ hds, h.symm⟩
  · intro ns t vs out h
    simp only [rewriteSpec] at h
    obtain ⟨vs', hvs, h⟩ := bind_ok_inv h
    simp only [Except.ok.injEq] at h
    exact ⟨vs', hvs, h.symm⟩
  · intro recv name t b out h
    simp only [rewriteDecl] at h
    obtain ⟨b', hb, h⟩ := bind_ok_inv h
    obtain ⟨t', ht, h⟩ := bind_ok_inv h
    simp only [Except.ok.injEq] at h
    exact ⟨t', b', ht, hb, h.symm⟩

/-- Witness for the amended C4: the binary-expression conjunct of
`rewrite_children_recursively` applied to the concrete node `a + b`, whose
operand children are rewritten (here to themselves, being identifiers). -/
theorem rewrite_children_recursively_witness :
    ∃ x' y', rewriteExpr (.ident "a") = .ok x' ∧
      rewriteExpr (.ident "b") = .ok y' ∧
      Expr.binaryExpr (.ident "a") "+" (.ident "b")
        = .binaryExpr x' "+" y' :=
  rewrite_children_recursively.2.2.2.2.2.2.2.2.2.2.2.2.2.1
    (.ident "a") "+" (.ident "b")
    (.binaryExpr (.ident "a") "+" (.ident "b")) rfl

/-- C10: the `ctx context.Context` injection applies to every function-type
node the traversal reaches, not only to function declarations and literals:
interface field lists and struct field lists are rewritten field by field, a
field whose type is a function type gets the injected leading parameter, and
so does the underlying function type of a named type declaration. -/
theorem funcType_injection_reaches_type_positions :
    (∀ (ms : FieldL) (out : Expr), rewriteExpr (.interfaceType ms) = .ok out →
      ∃ ms', rewriteFieldL ms = .ok ms' ∧ out = .interfaceType ms' ∧
        List.Forall₂ (fun a b => rewriteField a = .ok b)
          ms.listOrNil ms'.listOrNil) ∧
    (∀ (fs : FieldL) (out : Expr), rewriteExpr (.structType fs) = .ok out →
      ∃ fs', rewriteFieldL fs = .ok fs' ∧ out = .structType fs' ∧
        List.Forall₂ (fun a b => rewriteField a = .ok b)
          fs.listOrNil fs'.listOrNil) ∧
    (∀ (ns : Option (List String)) (tag : Option String) (ft : FuncTy)
        (out : Field),
      rewriteField (.mk ns (.funcType ft) tag) = .ok out →
      ∃ pl r', out = .mk ns (.funcType (.mk (.mk (some (ctxField :: pl))) r')) tag) ∧
    (∀ (n : String) (ft : FuncTy) (out : Spec),
      rewriteSpec (.typeSpec n (.funcType ft)) = .ok out →
      ∃ pl r', out = .typeSpec n (.funcType (.mk (.mk (some (ctxField :: pl))) r'))) := by
  refine ⟨?_, ?_, ?_, ?_⟩
  · intro ms out h
    simp only [rewriteExpr] at h
    obtain ⟨ms', hms, h⟩ := bind_ok_inv h
    simp only [Except.ok.injEq] at h
    exact ⟨ms', hms, h.symm, rewriteFieldL_ok hms⟩
  · intro fs out h
    simp only [rewriteExpr] at h
    obtain ⟨fs', hfs, h⟩ := bind_ok_inv h
    simp only [Except.ok.injEq] at h
    exact ⟨fs', hfs, h.symm, rewriteFieldL_ok hfs⟩
  · intro ns tag ft out h
    simp only [rewriteField] at h
    obtain ⟨t', ht, h⟩ := bind_ok_inv h
    simp only [Except.ok.injEq] at h
    subst h
    obtain ⟨pl, r', hshape⟩ := rewriteExpr_funcType_shape ht
    exact ⟨pl, r', by rw [hshape]⟩
  · intro n ft out h
    simp only [rewriteSpec] at h
    obtain ⟨t', ht, h⟩ := bind_ok_inv h
    simp only [Except.ok.injEq] at h
    subst h
    obtain ⟨pl, r', hshape⟩ := rewriteExpr_funcType_shape ht
    exact ⟨pl, r', by rw [hshape]⟩

/-- Witness for C10: a struct field of type `func()` (as in
`struct { f func() }`) is rewritten to one of type
`func(ctx context.Context)`, via `funcType_injection_reaches_type_positions`
at that concrete input. -/
theorem funcType_injection_reaches_type_positions_witness :
    ∃ pl r',
      Field.mk (some ["f"]) (.funcType (.mk (.mk (some [ctxField])) none)) none
        = .mk (some ["f"])
            (.funcType (.mk (.mk (some (ctxField :: pl))) r')) none :=
  funcType_injection_reaches_type_positions.2.2.1 (some ["f"]) none
    (.mk (.mk none) none)
    (.mk (some ["f"]) (.funcType (.mk (.mk (some [ctxField])) none)) none) rfl

/-- C8 counterexample: in overwrite mode, a file containing an unhandled node
kind makes `rewrite` panic after `os.Create` has already truncated the
destination — the original source file is left truncated, with its content
destroyed. -/
theorem processFile_truncates_on_panic_cex :
    rewriteFile ⟨"main", some [.badDecl]⟩ = .error (.ofDecl .badDecl) ∧
    processFileDest ⟨"main", some [.badDecl]⟩ true = .truncated :=
  ⟨rfl, rfl⟩

/-- C8 (amended): on a taxonomy violation nothing is ever printed, and in
stdout mode the source file is untouched; but in overwrite mode the
destination file was already truncated by `os.Create` before the rewrite ran,
so the original file is left truncated (emptied), not intact. -/
theorem processFile_abort_dest :
    ∀ (f : File) (e : GoNode), rewriteFile f = .error e →
      processFileDest f true = .truncated ∧
      processFileDest f false = .original := by
  intro f e h
  exact ⟨by simp [processFileDest, h], by simp [processFileDest]⟩

/-- Witness for the amended C8: `processFile_abort_dest` applied to a file
whose single declaration is an unhandled `ast.BadDecl`. -/
theorem processFile_abort_dest_witness :
    processFileDest ⟨"main", some [.badDecl]⟩ true = .truncated ∧
    processFileDest ⟨"main", some [.badDecl]⟩ false = .original :=
  processFile_abort_dest ⟨"main", some [.badDecl]⟩ (.ofDecl .badDecl) rfl

/-- C9 counterexample: with two inputs where the first fails, the driver
records an outcome for only one input — the `break` in `main` means the
second input is never processed, so the inputs are not independent. -/
theorem main_break_cex :
    mainLoop [.failure, .success] = [false] ∧
    (mainLoop [.failure, .success]).length = 1 ∧
    ([InputOutcome.failure, InputOutcome.success]).length = 2 :=
  ⟨rfl, rfl, rfl⟩

/-- C9 (amended): the first failing input makes the driver report that
failure and stop: the inputs before it are each processed, and the inputs
after it are never examined at all (the run's outcomes do not depend on
them). -/
theorem main_stops_after_first_failure :
    ∀ (pre post : List InputOutcome), (∀ x ∈ pre, x = .success) →
      mainLoop (pre ++ .failure :: post)
        = pre.map (fun _ => true) ++ [false] ∧
      mainLoop (pre ++ .failure :: post) = mainLoop (pre ++ [.failure]) := by
  intro pre post hpre
  induction pre with
  | nil => exact ⟨rfl, rfl⟩
  | cons x rest ih =>
    have hx : x = .success := hpre x (by simp)
    subst hx
    have hrest : ∀ y ∈ rest, y = InputOutcome.success :=
      fun y hy => hpre y (by simp [hy])
    obtain ⟨ih1, ih2⟩ := ih hrest
    constructor
    · simpa only [List.cons_append, mainLoop, List.map_cons, List.cons_append]
        using congrArg (List.cons true) ih1
    · simpa only [List.cons_append, mainLoop]
        using congrArg (List.cons true) ih2

/-- Witness for the amended C9: `main_stops_after_first_failure` on the run
`[success, failure, success]` — the trailing successful input is never
processed. -/
theorem main_stops_after_first_failure_witness :
    mainLoop [.success, .failure, .success] = [true, false] ∧
    mainLoop [.success, .failure, .success] = mainLoop [.success, .failure] :=
  main_stops_after_first_failure [.success] [.success]
    (fun x hx => by simpa using hx)

end Ctxrewriter
